import Mathlib

/-!
# Verification of the mfcoapi URI-map engine

A shallow embedding of the identifier-map logic of the repository
(`src/main.py`, `src/generate_permanent_uris.py`): nanoid generation,
`get_uri_for_key`, `add_uris_for_new_files`, the `/file/{uri_id}` resolve
route, the `save_uri_map` persistence step, and the listing filters.

The Python URI map is a `dict` from identifier to storage key.  Python
dicts preserve insertion order and have unique keys, so the map is
embedded as an insertion-ordered association list of `(id, key)` pairs;
`dict[new_id] = key` with `new_id` fresh is an append at the end, and
iteration over `.items()` is list recursion from the head.

`secrets.choice` draws from a cryptographically strong source.  Randomness
is embedded by passing the random draws in explicitly: `generate_nanoid`
takes the per-position draw as a function `Nat → Nat` (reduced modulo the
alphabet size, which is how a uniform choice from a 64-element sequence is
modelled), and the generate-retry loop of `get_uri_for_key` takes the
stream of pre-drawn candidate identifiers as a list, returning `none` in
the (astronomically unlikely, in the code an unbounded loop) case that
every supplied candidate collides.
-/

/-- The URI map `id -> s3_key`, an insertion-ordered association list with
unique first components, embedding the Python dict of `data/uri.json`. -/
abbrev UriMap := List (String × String)

/-- The dict's keys: the identifiers (`uri_map.keys()` / `x in uri_map`). -/
def ids (m : UriMap) : List String := m.map Prod.fst

/-- The dict's values: the storage keys (`uri_map.values()`). -/
def vals (m : UriMap) : List String := m.map Prod.snd

/-- The linear scan `for uri_id, key in uri_map.items(): if key == s3_key:
return uri_id` from `get_uri_for_key`: first identifier mapped to the
given storage key, if any. -/
def findIdForKey (m : UriMap) (s3_key : String) : Option String :=
  match m with
  | [] => none
  | (uri_id, key) :: rest =>
      if key = s3_key then some uri_id else findIdForKey rest s3_key

/-- Dict lookup by identifier: `uri_map[uri_id]` guarded by
`uri_id in uri_map`. -/
def lookupId (m : UriMap) (uri_id : String) : Option String :=
  match m with
  | [] => none
  | (i, key) :: rest => if i = uri_id then some key else lookupId rest uri_id

/-- Dict deletion `del uri_map[uri_id]` (used by the resolve route's
self-healing branch). -/
def removeId (m : UriMap) (uri_id : String) : UriMap :=
  m.filter (fun p => !(p.1 == uri_id))

/-- Python `string.ascii_lowercase`. -/
def ascii_lowercase : List Char := (List.range 26).map (fun i => Char.ofNat (97 + i))

/-- Python `string.ascii_uppercase`. -/
def ascii_uppercase : List Char := (List.range 26).map (fun i => Char.ofNat (65 + i))

/-- Python `string.ascii_letters = ascii_lowercase + ascii_uppercase`. -/
def ascii_letters : List Char := ascii_lowercase ++ ascii_uppercase

/-- Python `string.digits`. -/
def string_digits : List Char := (List.range 10).map (fun i => Char.ofNat (48 + i))

/-- `alphabet = string.ascii_letters + string.digits + "-_"` from
`generate_nanoid` (identical in `main.py` and `generate_permanent_uris.py`). -/
def alphabet : List Char := ascii_letters ++ string_digits ++ ['-', '_']

theorem alphabet_len : alphabet.length = 64 := by decide

/-- `generate_nanoid(length)`: `''.join(secrets.choice(alphabet) for _ in
range(length))`.  The draw at position `i` is `pick i` reduced modulo the
alphabet size (a uniform choice from the 64-element alphabet). -/
def generate_nanoid (pick : Nat → Nat) (length : Nat) : String :=
  String.mk ((List.range length).map (fun i =>
    alphabet.get ⟨pick i % alphabet.length,
      Nat.mod_lt _ (by rw [alphabet_len]; exact Nat.succ_pos 63)⟩))

/-- The generate-retry loop of `get_uri_for_key`: `new_id =
generate_nanoid(); while new_id in uri_map: new_id = generate_nanoid()`.
`supply` is the stream of pre-drawn candidates; the loop takes the first
one that is not already an identifier of the map, and `none` means the
whole supply collided. -/
def draw (supply : List String) (m : UriMap) : Option (String × List String) :=
  match supply with
  | [] => none
  | c :: rest => if (ids m).contains c then draw rest m else some (c, rest)

/-- `get_uri_for_key(s3_key, uri_map)` from `main.py` (and, identically,
`get_permanent_uri_for_key` from `generate_permanent_uris.py`): return the
existing identifier for the key if one exists, otherwise generate a fresh
identifier (retrying on collision) and insert it.  Returns the identifier,
the updated map, and the unconsumed supply. -/
def get_uri_for_key (s3_key : String) (uri_map : UriMap) (supply : List String) :
    Option (String × UriMap × List String) :=
  match findIdForKey uri_map s3_key with
  | some uri_id => some (uri_id, uri_map, supply)
  | none =>
      match draw supply uri_map with
      | none => none
      | some (new_id, rest) => some (new_id, uri_map ++ [(new_id, s3_key)], rest)

/-- Python `s.endswith(t)`: the characters of `t` are a suffix of the
characters of `s` (implemented over the character lists so that concrete
instances evaluate in the kernel). -/
def endsWithStr (s pat : String) : Bool := pat.data.isSuffixOf s.data

/-- Python `s.lower()`, per-character ASCII lowering (the storage keys at
issue are ASCII, where Python's `lower` agrees with `Char.toLower`). -/
def lowerStr (s : String) : String := String.mk (s.data.map Char.toLower)

/-- The skip condition of `add_uris_for_new_files`: `.DS_Store` files
(case-insensitively, `key_lower.endswith("/.ds_store") or key_lower ==
".ds_store"`) and directory markers (`s3_key.endswith("/")`). -/
def isSkipped (s3_key : String) : Bool :=
  let key_lower := lowerStr s3_key
  endsWithStr key_lower "/.ds_store" || key_lower == ".ds_store" || endsWithStr s3_key "/"

/-- The `for file_obj in all_files` loop body of `add_uris_for_new_files`,
with `existing_keys = set(uri_map.values())` computed once before the loop
and `changes_made` threaded through.  Each listing element is the
object's `"Key"` field (the only field the function reads). -/
def addLoop (files : List String) (existing_keys : List String) (uri_map : UriMap)
    (supply : List String) (changes_made : Bool) : Option (Bool × UriMap × List String) :=
  match files with
  | [] => some (changes_made, uri_map, supply)
  | s3_key :: rest =>
      if isSkipped s3_key then addLoop rest existing_keys uri_map supply changes_made
      else if existing_keys.contains s3_key then
        addLoop rest existing_keys uri_map supply changes_made
      else
        match get_uri_for_key s3_key uri_map supply with
        | none => none
        | some (_, uri_map', supply') => addLoop rest existing_keys uri_map' supply' true

/-- `add_uris_for_new_files(all_files, uri_map)` from `main.py`: add URI
mappings for listed files that do not already have one, skipping
`.DS_Store` files and directory markers; returns `changes_made` together
with the mutated map and the unconsumed supply. -/
def add_uris_for_new_files (all_files : List String) (uri_map : UriMap)
    (supply : List String) : Option (Bool × UriMap × List String) :=
  addLoop all_files (vals uri_map) uri_map supply false

/-- The per-object filter of `list_all_files_in_prefix` in
`generate_permanent_uris.py`: directory markers (`key.endswith("/")`)
first, then `.DS_Store` files, are dropped from the listing. -/
def keptByListing (key : String) : Bool :=
  if endsWithStr key "/" then false
  else
    let key_lower := lowerStr key
    if endsWithStr key_lower "/.ds_store" || key_lower == ".ds_store" then false
    else true

/-- `list_all_files_in_prefix`: of the objects the paginated listing
returns (each element standing for its `"Key"`), keep exactly those the
filter does not drop, in order. -/
def list_all_files_in_pfx (objects : List String) : List String :=
  objects.filter keptByListing

/-- The store's observable behaviour at one key in the resolve route's
`try` block: `head_object` + `generate_presigned_url` succeed with a
presigned URL, or `head_object` raises `s3.exceptions.NoSuchKey`, or some
other exception carrying an internal message is raised. -/
inductive StoreBehavior : Type
  | live (url : String)
  | noSuchKey
  | failure (msg : String)

/-- The HTTP outcome of the resolve route: a redirect to a URL, or an
`HTTPException` with a status code and a detail string. -/
inductive HttpOut : Type
  | redirect (url : String)
  | httpError (status : Nat) (detail : String)

/-- `get_file_by_permanent_uri(uri_id)` (route `/file/{uri_id}` in
`main.py`): load the map; unknown id gives 404 "URI not found"; for a
mapped id, a `NoSuchKey` from the store's existence check gives 404 "File
no longer exists" after reloading the map, deleting the stale entry and
saving; any other store failure gives 500 with a fixed detail.  The result
pairs the HTTP outcome with the persisted map after the request (the
reload in the `NoSuchKey` branch re-reads the same persisted state in this
single-threaded model). -/
def get_file_by_permanent_uri (uri_id : String) (store : String → StoreBehavior)
    (persisted : UriMap) : HttpOut × UriMap :=
  let uri_map := persisted
  match lookupId uri_map uri_id with
  | none => (HttpOut.httpError 404 "URI not found", persisted)
  | some s3_key =>
      match store s3_key with
      | StoreBehavior.live url => (HttpOut.redirect url, persisted)
      | StoreBehavior.noSuchKey =>
          (HttpOut.httpError 404 "File no longer exists", removeId persisted uri_id)
      | StoreBehavior.failure _ =>
          (HttpOut.httpError 500 "Failed to generate presigned URL", persisted)

/-- A primitive file-system operation, for describing what a save
performs. -/
inductive FsOp : Type
  | writeFile (path contents : String)
  | renameFile (src dst : String)

/-- `URI_MAP_FILE = DATA_DIR / "uri.json"`. -/
def URI_MAP_FILE : String := "data/uri.json"

/-- `json.dumps(uri_map, indent=2)` for a string-to-string dict: `\x7b\x7d`
when empty, otherwise each entry on its own line indented two spaces. -/
def serializeUriMap (m : UriMap) : String :=
  match m with
  | [] => "\x7b\x7d"
  | _ =>
      "\x7b\n"
        ++ String.intercalate ",\n"
            (m.map (fun p => "  \"" ++ p.1 ++ "\": \"" ++ p.2 ++ "\""))
        ++ "\n\x7d"

/-- `save_uri_map(uri_map)`: `URI_MAP_FILE.write_text(json.dumps(uri_map,
indent=2))` — the sequence of file-system operations it performs is one
direct write of the serialized map to the final path. -/
def save_uri_map_trace (uri_map : UriMap) : List FsOp :=
  [FsOp.writeFile URI_MAP_FILE (serializeUriMap uri_map)]

/-- A necessary condition for the write-to-temporary-then-atomically-
rename discipline the spec requires of a save: somewhere in the trace, a
rename finalizes onto the target path. -/
def usesAtomicRenameTo (trace : List FsOp) (finalPath : String) : Bool :=
  trace.any (fun op =>
    match op with
    | FsOp.renameFile _ dst => dst == finalPath
    | FsOp.writeFile _ _ => false)

/-- Whether an operation is a rename. -/
def isRenameOp : FsOp → Bool
  | FsOp.writeFile _ _ => false
  | FsOp.renameFile _ _ => true

/-- The file contents readable if the process crashes part-way through a
direct (non-atomic) write of `contents`: any prefix of `contents` may be
on disk. -/
def writeCrashStates (contents : String) : List String :=
  (List.range (contents.length + 1)).map (fun n => contents.take n)

/-! ## Basic lemmas about the map scan and the retry loop -/

theorem vals_cons (p : String × String) (m : UriMap) : vals (p :: m) = p.2 :: vals m := rfl

theorem vals_append (m₁ m₂ : UriMap) : vals (m₁ ++ m₂) = vals m₁ ++ vals m₂ := by
  simp [vals]

theorem findIdForKey_eq_none {m : UriMap} {k : String} :
    findIdForKey m k = none ↔ k ∉ vals m := by
  induction m with
  | nil => simp [findIdForKey, vals]
  | cons p rest ih =>
      obtain ⟨i, key⟩ := p
      by_cases hk : key = k
      · subst hk; simp [findIdForKey, vals]
      · have h1 : findIdForKey ((i, key) :: rest) k = findIdForKey rest k := by
          simp [findIdForKey, hk]
        have hk2 : ¬ (k = key) := fun h => hk h.symm
        rw [h1, ih, vals_cons]
        simp [List.mem_cons, not_or, hk2]

theorem findIdForKey_some_mem {m : UriMap} {k i : String}
    (h : findIdForKey m k = some i) : (i, k) ∈ m := by
  induction m with
  | nil => simp [findIdForKey] at h
  | cons p rest ih =>
      obtain ⟨j, key⟩ := p
      by_cases hk : key = k
      · subst hk
        simp [findIdForKey] at h
        subst h
        exact List.mem_cons_self _ _
      · simp [findIdForKey, hk] at h
        exact List.mem_cons_of_mem _ (ih h)

theorem findIdForKey_append {m : UriMap} {k i : String}
    (h : findIdForKey m k = none) :
    findIdForKey (m ++ [(i, k)]) k = some i := by
  induction m with
  | nil => simp [findIdForKey]
  | cons p rest ih =>
      obtain ⟨j, key⟩ := p
      by_cases hk : key = k
      · simp [findIdForKey, hk] at h
      · simp [findIdForKey, hk] at h ⊢
        exact ih h

/-- Inversion of `get_uri_for_key`: either the key already had an
identifier and nothing changed, or a fresh identifier was drawn and the
pair was appended. -/
theorem get_uri_for_key_inv {s3_key : String} {m : UriMap} {supply : List String}
    {uri_id : String} {m' : UriMap} {s' : List String}
    (h : get_uri_for_key s3_key m supply = some (uri_id, m', s')) :
    (findIdForKey m s3_key = some uri_id ∧ m' = m ∧ s' = supply) ∨
    (findIdForKey m s3_key = none ∧ draw supply m = some (uri_id, s') ∧
      m' = m ++ [(uri_id, s3_key)]) := by
  unfold get_uri_for_key at h
  cases hf : findIdForKey m s3_key with
  | some i =>
      rw [hf] at h
      simp at h
      left
      exact ⟨by rw [h.1], h.2.1.symm, h.2.2.symm⟩
  | none =>
      rw [hf] at h
      cases hd : draw supply m with
      | none => rw [hd] at h; simp at h
      | some pr =>
          obtain ⟨c, rest⟩ := pr
          rw [hd] at h
          simp at h
          obtain ⟨h1, h2, h3⟩ := h
          subst h1
          subst h3
          exact Or.inr ⟨rfl, rfl, h2.symm⟩

theorem get_uri_for_key_sub {s3_key : String} {m : UriMap} {supply : List String}
    {uri_id : String} {m' : UriMap} {s' : List String}
    (h : get_uri_for_key s3_key m supply = some (uri_id, m', s')) :
    ∀ p ∈ m, p ∈ m' := by
  rcases get_uri_for_key_inv h with ⟨_, hm, _⟩ | ⟨_, _, hm⟩ <;> subst hm <;>
    intro p hp
  · exact hp
  · exact List.mem_append_left _ hp

theorem get_uri_for_key_mem_vals {s3_key : String} {m : UriMap} {supply : List String}
    {uri_id : String} {m' : UriMap} {s' : List String}
    (h : get_uri_for_key s3_key m supply = some (uri_id, m', s')) :
    s3_key ∈ vals m' := by
  rcases get_uri_for_key_inv h with ⟨hf, hm, _⟩ | ⟨_, _, hm⟩ <;> subst hm
  · exact List.mem_map.mpr ⟨_, findIdForKey_some_mem hf, rfl⟩
  · exact List.mem_map.mpr ⟨(uri_id, s3_key), List.mem_append_right _ (List.mem_singleton_self _), rfl⟩

theorem get_uri_for_key_entries {s3_key : String} {m : UriMap} {supply : List String}
    {uri_id : String} {m' : UriMap} {s' : List String}
    (h : get_uri_for_key s3_key m supply = some (uri_id, m', s')) :
    ∀ p ∈ m', p ∈ m ∨ p = (uri_id, s3_key) := by
  rcases get_uri_for_key_inv h with ⟨_, hm, _⟩ | ⟨_, _, hm⟩ <;> subst hm <;>
    intro p hp
  · exact Or.inl hp
  · rcases List.mem_append.mp hp with hp | hp
    · exact Or.inl hp
    · exact Or.inr (List.mem_singleton.mp hp)

theorem get_uri_for_key_nodup {s3_key : String} {m : UriMap} {supply : List String}
    {uri_id : String} {m' : UriMap} {s' : List String}
    (h : get_uri_for_key s3_key m supply = some (uri_id, m', s'))
    (hn : (vals m).Nodup) : (vals m').Nodup := by
  rcases get_uri_for_key_inv h with ⟨_, hm, _⟩ | ⟨hf, _, hm⟩ <;> subst hm
  · exact hn
  · have hk : s3_key ∉ vals m := findIdForKey_eq_none.mp hf
    have hv : vals (m ++ [(uri_id, s3_key)]) = vals m ++ [s3_key] := by simp [vals]
    rw [hv, List.nodup_append]
    refine ⟨hn, List.nodup_singleton _, ?_⟩
    intro a ha hb
    rw [List.mem_singleton.mp hb] at ha
    exact hk ha

/-! ## Lemmas about the indexing loop -/

theorem addLoop_sub {ex : List String} :
    ∀ {files : List String} {m : UriMap} {s : List String} {b b' : Bool}
      {m' : UriMap} {s' : List String},
      addLoop files ex m s b = some (b', m', s') → ∀ p ∈ m, p ∈ m' := by
  intro files
  induction files with
  | nil =>
      intro m s b b' m' s' h
      simp only [addLoop] at h
      simp at h
      obtain ⟨-, h2, -⟩ := h
      subst h2
      exact fun p hp => hp
  | cons k rest ih =>
      intro m s b b' m' s' h
      simp only [addLoop] at h
      split at h
      · exact ih h
      · split at h
        · exact ih h
        · split at h
          · exact absurd h (by simp)
          · rename_i heq
            intro p hp
            exact ih h p (get_uri_for_key_sub heq p hp)

theorem addLoop_vals_sub {ex : List String} {files : List String} {m : UriMap}
    {s : List String} {b b' : Bool} {m' : UriMap} {s' : List String}
    (h : addLoop files ex m s b = some (b', m', s')) :
    ∀ x ∈ vals m, x ∈ vals m' := by
  intro x hx
  obtain ⟨p, hp, hpx⟩ := List.mem_map.mp hx
  exact List.mem_map.mpr ⟨p, addLoop_sub h p hp, hpx⟩

theorem addLoop_covers {ex : List String} :
    ∀ {files : List String} {m : UriMap} {s : List String} {b b' : Bool}
      {m' : UriMap} {s' : List String},
      addLoop files ex m s b = some (b', m', s') →
      (∀ x ∈ ex, x ∈ vals m) →
      ∀ k ∈ files, isSkipped k = false → k ∈ vals m' := by
  intro files
  induction files with
  | nil => intro m s b b' m' s' _ _ k hk; simp at hk
  | cons k₀ rest ih =>
      intro m s b b' m' s' h hex k hk hns
      simp only [addLoop] at h
      rcases List.mem_cons.mp hk with hk | hk
      · subst hk
        split at h
        · rename_i hsk
          rw [hns] at hsk
          exact absurd hsk (by simp)
        · split at h
          · rename_i hin
            have : k ∈ vals m := hex k (List.mem_of_elem_eq_true hin)
            exact addLoop_vals_sub h k this
          · split at h
            · exact absurd h (by simp)
            · rename_i heq
              exact addLoop_vals_sub h k (get_uri_for_key_mem_vals heq)
      · split at h
        · exact ih h hex k hk hns
        · split at h
          · exact ih h hex k hk hns
          · split at h
            · exact absurd h (by simp)
            · rename_i heq
              refine ih h ?_ k hk hns
              intro x hx
              exact get_uri_for_key_sub heq _ (List.mem_map.mp (hex x hx)).choose_spec.1
                |> fun hmem => List.mem_map.mpr ⟨_, hmem, (List.mem_map.mp (hex x hx)).choose_spec.2⟩

theorem addLoop_noop {ex : List String} :
    ∀ {files : List String} {m : UriMap} {s : List String} {b : Bool},
      (∀ k ∈ files, isSkipped k = true ∨ ex.contains k = true) →
      addLoop files ex m s b = some (b, m, s) := by
  intro files
  induction files with
  | nil => intro m s b _; rfl
  | cons k rest ih =>
      intro m s b h
      have hrest : ∀ k ∈ rest, isSkipped k = true ∨ ex.contains k = true :=
        fun x hx => h x (List.mem_cons_of_mem _ hx)
      rcases h k (List.mem_cons_self _ _) with hk | hk
      · simp only [addLoop, hk]
        simpa using ih hrest
      · simp only [addLoop, hk]
        by_cases hs : isSkipped k = true
        · simp only [hs, if_true]
          exact ih hrest
        · simp only [Bool.not_eq_true] at hs
          simp only [hs]
          simpa using ih hrest

theorem addLoop_entries {ex : List String} :
    ∀ {files : List String} {m : UriMap} {s : List String} {b b' : Bool}
      {m' : UriMap} {s' : List String},
      addLoop files ex m s b = some (b', m', s') →
      ∀ p ∈ m', p ∈ m ∨ (p.2 ∈ files ∧ isSkipped p.2 = false) := by
  intro files
  induction files with
  | nil =>
      intro m s b b' m' s' h p hp
      simp only [addLoop] at h
      simp at h
      obtain ⟨-, h2, -⟩ := h
      subst h2
      exact Or.inl hp
  | cons k rest ih =>
      intro m s b b' m' s' h p hp
      simp only [addLoop] at h
      by_cases hsk : isSkipped k = true
      · rw [if_pos hsk] at h
        rcases ih h p hp with h1 | ⟨h1, h2⟩
        · exact Or.inl h1
        · exact Or.inr ⟨List.mem_cons_of_mem _ h1, h2⟩
      · rw [if_neg hsk] at h
        by_cases hin : ex.contains k = true
        · rw [if_pos hin] at h
          rcases ih h p hp with h1 | ⟨h1, h2⟩
          · exact Or.inl h1
          · exact Or.inr ⟨List.mem_cons_of_mem _ h1, h2⟩
        · rw [if_neg hin] at h
          cases heq : get_uri_for_key k m s with
          | none => rw [heq] at h; simp at h
          | some t =>
              obtain ⟨i₀, m₀, s₀⟩ := t
              rw [heq] at h
              rcases ih h p hp with h1 | ⟨h1, h2⟩
              · rcases get_uri_for_key_entries heq p h1 with h2 | h2
                · exact Or.inl h2
                · refine Or.inr ⟨?_, ?_⟩
                  · rw [h2]; exact List.mem_cons_self _ _
                  · rw [h2]
                    simpa using hsk
              · exact Or.inr ⟨List.mem_cons_of_mem _ h1, h2⟩

theorem addLoop_nodup {ex : List String} :
    ∀ {files : List String} {m : UriMap} {s : List String} {b b' : Bool}
      {m' : UriMap} {s' : List String},
      addLoop files ex m s b = some (b', m', s') →
      (vals m).Nodup → (vals m').Nodup := by
  intro files
  induction files with
  | nil =>
      intro m s b b' m' s' h hn
      simp only [addLoop] at h
      simp at h
      obtain ⟨-, h2, -⟩ := h
      subst h2
      exact hn
  | cons k rest ih =>
      intro m s b b' m' s' h hn
      simp only [addLoop] at h
      split at h
      · exact ih h hn
      · split at h
        · exact ih h hn
        · split at h
          · exact absurd h (by simp)
          · rename_i heq
            exact ih h (get_uri_for_key_nodup heq hn)

/-! ## Lemmas about the resolve route and the listing filter -/

theorem lookupId_removeId (m : UriMap) (uri_id : String) :
    lookupId (removeId m uri_id) uri_id = none := by
  induction m with
  | nil => rfl
  | cons p rest ih =>
      obtain ⟨i, key⟩ := p
      by_cases hi : i = uri_id
      · subst hi
        simpa [removeId, List.filter_cons] using ih
      · have hb : (i == uri_id) = false := beq_eq_false_iff_ne.mpr hi
        simp only [removeId, List.filter_cons, hb, Bool.not_false, if_pos]
        simp only [lookupId, if_neg hi]
        exact ih

theorem removeId_nodup {m : UriMap} (uri_id : String) (hn : (vals m).Nodup) :
    (vals (removeId m uri_id)).Nodup := by
  have hsub : List.Sublist (vals (removeId m uri_id)) (vals m) :=
    List.Sublist.map _ (List.filter_sublist m)
  exact List.Nodup.sublist hsub hn

theorem keptByListing_eq_not_skipped (k : String) : keptByListing k = !(isSkipped k) := by
  simp only [keptByListing, isSkipped]
  by_cases hA : endsWithStr (lowerStr k) "/.ds_store" = true <;>
    by_cases hB : (lowerStr k == ".ds_store") = true <;>
      by_cases hC : endsWithStr k "/" = true <;>
        simp_all

theorem lookupId_append {m : UriMap} {uri_id k : String} (t : UriMap)
    (h : lookupId m uri_id = some k) : lookupId (m ++ t) uri_id = some k := by
  induction m with
  | nil => simp [lookupId] at h
  | cons p rest ih =>
      obtain ⟨i, key⟩ := p
      by_cases hi : i = uri_id
      · simp only [lookupId, if_pos hi] at h ⊢
        exact h
      · simp only [lookupId, if_neg hi] at h ⊢
        exact ih h

theorem get_uri_for_key_append {s3_key : String} {m : UriMap} {supply : List String}
    {uri_id : String} {m' : UriMap} {s' : List String}
    (h : get_uri_for_key s3_key m supply = some (uri_id, m', s')) :
    ∃ t, m' = m ++ t := by
  rcases get_uri_for_key_inv h with ⟨-, hm, -⟩ | ⟨-, -, hm⟩
  · exact ⟨[], by simp [hm]⟩
  · exact ⟨[(uri_id, s3_key)], hm⟩

theorem addLoop_append {ex : List String} :
    ∀ {files : List String} {m : UriMap} {s : List String} {b b' : Bool}
      {m' : UriMap} {s' : List String},
      addLoop files ex m s b = some (b', m', s') → ∃ t, m' = m ++ t := by
  intro files
  induction files with
  | nil =>
      intro m s b b' m' s' h
      simp only [addLoop] at h
      simp at h
      exact ⟨[], by simp [h.2.1.symm]⟩
  | cons k rest ih =>
      intro m s b b' m' s' h
      simp only [addLoop] at h
      by_cases hsk : isSkipped k = true
      · rw [if_pos hsk] at h; exact ih h
      · rw [if_neg hsk] at h
        by_cases hin : ex.contains k = true
        · rw [if_pos hin] at h; exact ih h
        · rw [if_neg hin] at h
          cases heq : get_uri_for_key k m s with
          | none => rw [heq] at h; simp at h
          | some t =>
              obtain ⟨i₀, m₀, s₀⟩ := t
              rw [heq] at h
              obtain ⟨t₁, ht₁⟩ := get_uri_for_key_append heq
              obtain ⟨t₂, ht₂⟩ := ih h
              exact ⟨t₁ ++ t₂, by rw [ht₂, ht₁, List.append_assoc]⟩

theorem generate_nanoid_chars (pick : Nat → Nat) (n : Nat) :
    ∀ c ∈ (generate_nanoid pick n).toList, c ∈ alphabet := by
  intro c hc
  have hc2 : c ∈ (List.range n).map (fun i =>
      alphabet.get ⟨pick i % alphabet.length,
        Nat.mod_lt _ (by rw [alphabet_len]; exact Nat.succ_pos 63)⟩) := hc
  obtain ⟨i, -, hi⟩ := List.mem_map.mp hc2
  rw [← hi]
  exact List.get_mem _ _ _

/-! ## The claims -/

/-- Claim C3: after a successful indexing pass every non-skipped listed
key has an identifier mapping; concretely, an empty map and a listing of
one non-skipped key `c` gain exactly the one entry `(fresh id, c)` with
`changes_made = true`. -/
theorem C3_new_key_assignment :
    (∀ files m supply b' m' s',
        add_uris_for_new_files files m supply = some (b', m', s') →
        ∀ k ∈ files, isSkipped k = false → k ∈ vals m') ∧
    (∀ c uri_id rest, isSkipped c = false →
        add_uris_for_new_files [c] [] (uri_id :: rest) =
          some (true, [(uri_id, c)], rest)) := by
  constructor
  · intro files m supply b' m' s' h k hk hns
    exact addLoop_covers h (fun x hx => hx) k hk hns
  · intro c uri_id rest hns
    simp [add_uris_for_new_files, addLoop, hns, vals, get_uri_for_key, findIdForKey,
      draw, ids, List.contains]

theorem C3_witness :
    isSkipped "c.txt" = false ∧
    add_uris_for_new_files ["c.txt"] [] ["n0"] = some (true, [("n0", "c.txt")], []) :=
  ⟨rfl, C3_new_key_assignment.2 "c.txt" "n0" [] rfl⟩

/-- Claim C4: registration is stable — if `get_uri_for_key` returns `id`
for a key, calling it again with the same key on the resulting map
returns the same `id` and leaves the map (and supply) unchanged, and no
entry of the input map is modified or removed. -/
theorem C4_stability :
    ∀ s3_key m supply uri_id m' s',
      get_uri_for_key s3_key m supply = some (uri_id, m', s') →
      (∀ supply2, get_uri_for_key s3_key m' supply2 = some (uri_id, m', supply2)) ∧
        ∀ p ∈ m, p ∈ m' := by
  intro k m supply uri_id m' s' h
  refine ⟨?_, get_uri_for_key_sub h⟩
  intro supply2
  rcases get_uri_for_key_inv h with ⟨hf, hm, -⟩ | ⟨hf, -, hm⟩
  · subst hm
    unfold get_uri_for_key
    rw [hf]
  · subst hm
    unfold get_uri_for_key
    rw [findIdForKey_append hf]

theorem C4_witness :
    get_uri_for_key "a.txt" [] ["i1"] = some ("i1", [("i1", "a.txt")], []) ∧
    get_uri_for_key "a.txt" [("i1", "a.txt")] [] = some ("i1", [("i1", "a.txt")], []) :=
  ⟨rfl, (C4_stability "a.txt" [] ["i1"] "i1" [("i1", "a.txt")] [] rfl).1 []⟩

/-- Claim C5: the indexing pass is idempotent — a second run on the map a
successful first run produced reports `changes_made = false` and returns
that map (and the remaining supply) unchanged. -/
theorem C5_idempotence :
    ∀ files m supply b' m' s' supply2,
      add_uris_for_new_files files m supply = some (b', m', s') →
      add_uris_for_new_files files m' supply2 = some (false, m', supply2) := by
  intro files m supply b' m' s' supply2 h
  have hcov : ∀ k ∈ files, isSkipped k = false → k ∈ vals m' :=
    addLoop_covers h (fun x hx => hx)
  unfold add_uris_for_new_files
  apply addLoop_noop
  intro k hk
  by_cases hs : isSkipped k = true
  · exact Or.inl hs
  · right
    have hmem : k ∈ vals m' := hcov k hk (by simpa using hs)
    exact List.elem_eq_true_of_mem hmem

theorem C5_witness :
    add_uris_for_new_files ["c.txt"] [("n0", "c.txt")] ["n1"] =
      some (false, [("n0", "c.txt")], ["n1"]) :=
  C5_idempotence ["c.txt"] [] ["n0"] true [("n0", "c.txt")] [] ["n1"] rfl

/-- Claim C6: every map-mutating operation — registration, the indexing
pass, and the resolve route (including its stale-entry deletion) —
preserves the invariant that at most one live entry exists per storage
key (the map's values are pairwise distinct). -/
theorem C6_key_uniqueness :
    (∀ s3_key m supply uri_id m' s',
        get_uri_for_key s3_key m supply = some (uri_id, m', s') →
        (vals m).Nodup → (vals m').Nodup) ∧
    (∀ files m supply b' m' s',
        add_uris_for_new_files files m supply = some (b', m', s') →
        (vals m).Nodup → (vals m').Nodup) ∧
    (∀ uri_id store m, (vals m).Nodup →
        (vals (get_file_by_permanent_uri uri_id store m).2).Nodup) := by
  refine ⟨fun _ _ _ _ _ _ h hn => get_uri_for_key_nodup h hn,
          fun _ _ _ _ _ _ h hn => addLoop_nodup h hn, ?_⟩
  intro uri_id store m hn
  unfold get_file_by_permanent_uri
  cases hl : lookupId m uri_id with
  | none => simpa [hl] using hn
  | some k =>
      cases hs : store k with
      | live url => simpa [hl, hs] using hn
      | noSuchKey =>
          simp only [hl, hs]
          exact removeId_nodup _ hn
      | failure msg => simpa [hl, hs] using hn

theorem C6_witness :
    (vals [("id1", "a.txt")]).Nodup ∧
    (vals (get_file_by_permanent_uri "id1" (fun _ => StoreBehavior.noSuchKey)
      [("id1", "a.txt")]).2).Nodup :=
  ⟨by simp [vals], C6_key_uniqueness.2.2 "id1" (fun _ => StoreBehavior.noSuchKey)
    [("id1", "a.txt")] (by simp [vals])⟩

/-- Claim C7: self-healing resolution — an id absent from the map yields
404 "URI not found" and leaves the map as it was; an id whose key the
store's existence check reports missing (`NoSuchKey`) yields 404 "File no
longer exists" and the stale entry is removed from the persisted map; any
other store failure yields a 500 whose detail is the fixed string
"Failed to generate presigned URL", never the store's internal message. -/
theorem C7_self_healing_resolution :
    ∀ uri_id store m,
      (lookupId m uri_id = none →
        get_file_by_permanent_uri uri_id store m =
          (HttpOut.httpError 404 "URI not found", m)) ∧
      (∀ s3_key, lookupId m uri_id = some s3_key →
        store s3_key = StoreBehavior.noSuchKey →
        (get_file_by_permanent_uri uri_id store m).1 =
            HttpOut.httpError 404 "File no longer exists" ∧
          lookupId (get_file_by_permanent_uri uri_id store m).2 uri_id = none) ∧
      (∀ s3_key msg, lookupId m uri_id = some s3_key →
        store s3_key = StoreBehavior.failure msg →
        get_file_by_permanent_uri uri_id store m =
          (HttpOut.httpError 500 "Failed to generate presigned URL", m)) := by
  intro uri_id store m
  refine ⟨?_, ?_, ?_⟩
  · intro h
    simp [get_file_by_permanent_uri, h]
  · intro s3_key h hs
    refine ⟨by simp [get_file_by_permanent_uri, h, hs], ?_⟩
    have h2 : (get_file_by_permanent_uri uri_id store m).2 = removeId m uri_id := by
      simp [get_file_by_permanent_uri, h, hs]
    rw [h2]
    exact lookupId_removeId m uri_id
  · intro s3_key msg h hs
    simp [get_file_by_permanent_uri, h, hs]

theorem C7_witness :
    (get_file_by_permanent_uri "id1" (fun _ => StoreBehavior.noSuchKey)
        [("id1", "a.txt")]).1 = HttpOut.httpError 404 "File no longer exists" ∧
    lookupId (get_file_by_permanent_uri "id1" (fun _ => StoreBehavior.noSuchKey)
        [("id1", "a.txt")]).2 "id1" = none :=
  (C7_self_healing_resolution "id1" (fun _ => StoreBehavior.noSuchKey)
    [("id1", "a.txt")]).2.1 "a.txt" rfl rfl

/-- Claim C9: the identifier generator always produces a string of
exactly 21 characters, each drawn from the 64-symbol URL-safe alphabet of
upper- and lower-case ASCII letters, the ten digits, '-' and '_'. -/
theorem C9_identifier_format :
    alphabet.length = 64 ∧ alphabet.Nodup ∧
    alphabet =
      "abcdefghijklmnopqrstuvwxyzABCDEFGHIJKLMNOPQRSTUVWXYZ0123456789-_".data ∧
    (∀ c ∈ alphabet,
      ('a' ≤ c ∧ c ≤ 'z') ∨ ('A' ≤ c ∧ c ≤ 'Z') ∨ ('0' ≤ c ∧ c ≤ '9') ∨
        c = '-' ∨ c = '_') ∧
    (∀ pick, (generate_nanoid pick 21).length = 21 ∧
      ∀ c ∈ (generate_nanoid pick 21).toList, c ∈ alphabet) := by
  refine ⟨alphabet_len, by decide, by decide, by decide, ?_⟩
  intro pick
  exact ⟨by simp [generate_nanoid, String.length], generate_nanoid_chars pick 21⟩

theorem C9_witness :
    'a' ∈ alphabet ∧
    (('a' ≤ 'a' ∧ 'a' ≤ 'z') ∨ ('A' ≤ 'a' ∧ 'a' ≤ 'Z') ∨ ('0' ≤ 'a' ∧ 'a' ≤ '9') ∨
      'a' = '-' ∨ 'a' = '_') ∧
    'a' ∈ (generate_nanoid (fun _ => 0) 21).toList ∧
    'a' ∈ alphabet :=
  ⟨by decide, C9_identifier_format.2.2.2.1 'a' (by decide), by decide,
    (C9_identifier_format.2.2.2.2 (fun _ => 0)).2 'a' (by decide)⟩

/-- Claim C10: the indexing pass never creates a mapping for a skipped
key (a directory marker ending in "/", or a `.DS_Store` file compared
case-insensitively) — any skipped key among the output map's values was
already a value of the input map — and the recursive listing never
returns a skipped key at all. -/
theorem C10_filtering_invariant :
    (∀ files m supply b' m' s',
        add_uris_for_new_files files m supply = some (b', m', s') →
        ∀ k, isSkipped k = true → k ∈ vals m' → k ∈ vals m) ∧
    (∀ objects k, k ∈ list_all_files_in_pfx objects → isSkipped k = false) := by
  constructor
  · intro files m supply b' m' s' h k hsk hk
    obtain ⟨p, hp, hpk⟩ := List.mem_map.mp hk
    rcases addLoop_entries h p hp with h1 | ⟨-, h2⟩
    · exact List.mem_map.mpr ⟨p, h1, hpk⟩
    · rw [hpk] at h2
      rw [h2] at hsk
      exact absurd hsk (by simp)
  · intro objects k hk
    have h1 : keptByListing k = true := List.of_mem_filter hk
    rw [keptByListing_eq_not_skipped] at h1
    simpa using h1

theorem C10_witness :
    add_uris_for_new_files [] [("i1", "dir/")] [] = some (false, [("i1", "dir/")], []) ∧
    isSkipped "dir/" = true ∧
    "dir/" ∈ vals [("i1", "dir/")] ∧
    "a.txt" ∈ list_all_files_in_pfx ["a.txt", "dir/"] ∧
    isSkipped "a.txt" = false :=
  ⟨rfl, rfl, by simp [vals],
    by simp [list_all_files_in_pfx, List.mem_filter, keptByListing, endsWithStr,
      lowerStr, List.isSuffixOf],
    C10_filtering_invariant.2 ["a.txt", "dir/"] "a.txt"
      (by simp [list_all_files_in_pfx, List.mem_filter, keptByListing, endsWithStr,
        lowerStr, List.isSuffixOf])⟩

/-- Claim C1 counterexample: with map `{id1: a.txt}` and a new listing
containing only `b.txt`, the indexing pass does not produce `{id1:
b.txt}` — it keeps `id1 ↦ a.txt` (so a mapping to the old key remains)
and allocates the fresh identifier `id2` for `b.txt`. -/
theorem C1_counterexample :
    add_uris_for_new_files ["b.txt"] [("id1", "a.txt")] ["id2"] =
      some (true, [("id1", "a.txt"), ("id2", "b.txt")], []) ∧
    lookupId [("id1", "a.txt"), ("id2", "b.txt")] "id1" = some "a.txt" ∧
    "a.txt" ∈ vals [("id1", "a.txt"), ("id2", "b.txt")] ∧
    ("a.txt" == "b.txt") = false :=
  ⟨rfl, rfl, by simp [vals], rfl⟩

/-- Claim C1 as amended: the indexing pass performs no move detection —
it never rewrites an existing identifier's key (every entry of the input
map survives verbatim), and for old map `{id1: a}` with new listing
`{b}` (`b` non-skipped, distinct from `a`, fresh candidate `id2`) it
keeps `id1 ↦ a` and appends a fresh entry `id2 ↦ b` instead of
rewriting. -/
theorem C1_no_move_detection :
    (∀ files m supply b' m' s',
        add_uris_for_new_files files m supply = some (b', m', s') →
        ∀ p ∈ m, p ∈ m') ∧
    (∀ a b id1 id2 rest, isSkipped b = false → b ≠ a → id2 ≠ id1 →
        add_uris_for_new_files [b] [(id1, a)] (id2 :: rest) =
          some (true, [(id1, a), (id2, b)], rest)) := by
  constructor
  · exact fun _ _ _ _ _ _ h => addLoop_sub h
  · intro a b id1 id2 rest hns hba h21
    have hfa : ¬ (a = b) := fun h => hba h.symm
    have hbeq : (b == a) = false := beq_eq_false_iff_ne.mpr hba
    have hbeq2 : (id2 == id1) = false := beq_eq_false_iff_ne.mpr h21
    simp [add_uris_for_new_files, addLoop, get_uri_for_key, findIdForKey, draw, ids,
      vals, List.contains, List.elem, hns, hfa, hbeq, hbeq2]

theorem C1_witness :
    isSkipped "b.txt" = false ∧
    add_uris_for_new_files ["b.txt"] [("id1", "a.txt")] ["id2"] =
      some (true, [("id1", "a.txt"), ("id2", "b.txt")], []) :=
  ⟨rfl, C1_no_move_detection.2 "a.txt" "b.txt" "id1" "id2" [] rfl
    (by decide) (by decide)⟩

/-- Claim C2 counterexample: with map `{id1: a.txt}` and an empty new
listing (the key is gone from storage), the indexing pass reports no
changes and `id1` is still mapped — the entry is not removed. -/
theorem C2_counterexample :
    add_uris_for_new_files [] [("id1", "a.txt")] [] =
      some (false, [("id1", "a.txt")], []) ∧
    lookupId [("id1", "a.txt")] "id1" = some "a.txt" :=
  ⟨rfl, rfl⟩

/-- Claim C2 as amended: the indexing pass never prunes deleted keys —
an empty listing returns the map unchanged with `changes_made = false`,
and in general every identifier mapping of the input map is still
resolvable unchanged in the output map (stale entries are removed only
lazily, by the resolve route, on access). -/
theorem C2_no_deletion_pruning :
    (∀ m supply, add_uris_for_new_files [] m supply = some (false, m, supply)) ∧
    (∀ files m supply b' m' s',
        add_uris_for_new_files files m supply = some (b', m', s') →
        ∀ uri_id k, lookupId m uri_id = some k → lookupId m' uri_id = some k) := by
  constructor
  · intro m supply; rfl
  · intro files m supply b' m' s' h uri_id k hl
    obtain ⟨t, ht⟩ := addLoop_append h
    rw [ht]
    exact lookupId_append t hl

theorem C2_witness :
    add_uris_for_new_files ["b.txt"] [("id1", "a.txt")] ["id2"] =
      some (true, [("id1", "a.txt"), ("id2", "b.txt")], []) ∧
    lookupId [("id1", "a.txt"), ("id2", "b.txt")] "id1" = some "a.txt" :=
  ⟨rfl, C2_no_deletion_pruning.2 ["b.txt"] [("id1", "a.txt")] ["id2"] true
    [("id1", "a.txt"), ("id2", "b.txt")] [] rfl "id1" "a.txt" rfl⟩

/-- Claim C8 counterexample: saving the map `{id1: a.txt}` performs a
single direct write of the serialization to the final path
`data/uri.json`; the trace contains no rename at all, in particular no
atomic rename finalizing onto the target, contradicting the required
write-to-temporary-then-rename discipline. -/
theorem C8_counterexample :
    save_uri_map_trace [("id1", "a.txt")] =
      [FsOp.writeFile URI_MAP_FILE (serializeUriMap [("id1", "a.txt")])] ∧
    usesAtomicRenameTo (save_uri_map_trace [("id1", "a.txt")]) URI_MAP_FILE = false ∧
    (save_uri_map_trace [("id1", "a.txt")]).any isRenameOp = false :=
  ⟨rfl, rfl, rfl⟩

/-- Claim C8 as amended: `save_uri_map` is a direct, non-atomic
full-replace write — for every map it performs exactly one write of the
serialized map onto the final path, with no temporary file and no
rename, so a crash part-way through the write can leave the store in a
readable half-written state (e.g. the one-character prefix of the
serialization, which differs from any complete serialization). -/
theorem C8_direct_nonatomic_write :
    (∀ m, save_uri_map_trace m =
      [FsOp.writeFile URI_MAP_FILE (serializeUriMap m)]) ∧
    (∀ m, (save_uri_map_trace m).any isRenameOp = false) ∧
    (∃ s ∈ writeCrashStates (serializeUriMap [("id1", "a.txt")]),
      s.length = 1 ∧ (s == serializeUriMap [("id1", "a.txt")]) = false ∧
      (s == serializeUriMap []) = false) := by
  refine ⟨fun m => rfl, fun m => rfl, ⟨"\x7b", ?_, rfl, rfl, rfl⟩⟩
  show "\x7b" ∈ writeCrashStates (serializeUriMap [("id1", "a.txt")])
  have h1 : serializeUriMap [("id1", "a.txt")] = "\x7b\n  \"id1\": \"a.txt\"\n\x7d" := rfl
  rw [h1]
  simp only [writeCrashStates, List.mem_map]
  exact ⟨1, by simp [String.length], rfl⟩
